import Mathlib

/-!
Verification of the etcbuild toolchain build scripts: a shallow embedding of
the package resolver and fetcher (`PackageManager.py`) and of the builder
registry (`BuilderFactory.py`), together with theorems settling the
specification's claims about them.

The filesystem is modelled as a map from filenames to optional byte lists,
the SHA-384 digest as an arbitrary function from byte lists to hex strings
(the claims only compare digests for equality), and the network as a function
from URIs to the downloaded bytes.
-/

/-! ## String helpers

Python's `str.replace` and `os.path.basename` are modelled on character
lists.  `replaceChars` follows Python's left-to-right, non-overlapping
replacement for a non-empty pattern (the code only ever replaces the
non-empty version placeholder); it is fuelled by the input length so that
it is structurally recursive and computable by the kernel. -/

/-- Does `pat` start the list `l`? -/
def startsWithL : List Char → List Char → Bool
  | [], _ => true
  | _ :: _, [] => false
  | a :: as, b :: bs => a == b && startsWithL as bs

/-- Does `pat` occur as a contiguous sublist of `l`? -/
def occursIn (pat : List Char) : List Char → Bool
  | [] => startsWithL pat []
  | c :: cs => startsWithL pat (c :: cs) || occursIn pat cs

/-- Replace every (left-to-right, non-overlapping) occurrence of `pat` by
`rep`, with explicit fuel. -/
def replaceCharsAux (pat rep : List Char) : Nat → List Char → List Char
  | _, [] => []
  | 0, l => l
  | fuel + 1, c :: cs =>
    if !pat.isEmpty && startsWithL pat (c :: cs) then
      rep ++ replaceCharsAux pat rep fuel (cs.drop (pat.length - 1))
    else
      c :: replaceCharsAux pat rep fuel cs

/-- Replace every occurrence of `pat` by `rep` in `l`. -/
def replaceChars (pat rep l : List Char) : List Char :=
  replaceCharsAux pat rep l.length l

/-- Python's `s.replace(pat, rep)` for a non-empty pattern. -/
def pyReplace (s pat rep : String) : String :=
  ⟨replaceChars pat.data rep.data s.data⟩

/-- Python's `os.path.basename`: everything after the last slash. -/
def basename (s : String) : String :=
  ⟨s.data.foldl (fun acc c => if c = '/' then [] else acc ++ [c]) []⟩

/-! ## Filesystem, digest and network models -/

/-- A filesystem: filename to file bytes, `none` when the file is absent. -/
def FS : Type := String → Option (List Nat)

/-- Write a file (Python `open(name, "wb")` plus writing all chunks). -/
def writeFS (fs : FS) (name : String) (content : List Nat) : FS :=
  fun n => if n = name then some content else fs n

/-- Delete a file (Python `os.unlink`). -/
def eraseFS (fs : FS) (name : String) : FS :=
  fun n => if n = name then none else fs n

/-! ## PackageManager.py: the data model

A manifest record is a JSON object with keys `uri`, `version` and `sha384`;
`PackageManager.get` later inserts the keys `pkgname` and `local_filename`
into the very same object, so those two are optional fields here (`none`
models the key being absent from the dict). -/

/-- One manifest record (a mutable Python dict). -/
structure PkgRecord where
  uri : String
  version : String
  sha384 : String
  pkgname : Option String := none
  local_filename : Option String := none
  deriving DecidableEq, Repr

/-- The exception classes of `PackageManager.py` (plus the `IndexError` that
Python raises when the latest version of an empty record list is taken). -/
inductive PMError where
  | PackageNameNotPresent
  | PackageVersionNotPresent
  | PackageDownloadFailed
  | IndexError
  deriving DecidableEq, Repr

/-- A fully resolved package descriptor, as consumed by `is_present`,
`download` and `retrieve` (a dict holding all five keys). -/
structure Descriptor where
  pkgname : String
  version : String
  uri : String
  local_filename : String
  sha384 : String
  deriving DecidableEq, Repr

/-- Look a package name up in the manifest mapping (Python dict access). -/
def lookupPkgs : List (String × List PkgRecord) → String → Option (List PkgRecord)
  | [], _ => none
  | p :: ps, k => if p.fst = k then some p.snd else lookupPkgs ps k

/-- Replace the record list stored under key `k` (in-place list mutation of
the dict entry). -/
def assocSet (l : List (String × List PkgRecord)) (k : String)
    (v : List PkgRecord) : List (String × List PkgRecord) :=
  l.map fun p => if p.fst = k then (p.fst, v) else p

/-- Index of the last record satisfying `p`: Python's
`{ pkg["version"]: pkg for pkg in ... }` dict comprehension keeps the last
record of any given version, so an explicit-version lookup selects the last
match. -/
def findLastIdx (p : α → Bool) : List α → Option Nat
  | [] => none
  | a :: as =>
    match findLastIdx p as with
    | some i => some (i + 1)
    | none => if p a then some 0 else none

/-- The state of a `PackageManager`: the manifest mapping loaded from JSON
and the package cache directory. -/
structure PackageManager where
  pkgs : List (String × List PkgRecord)
  package_dir : String
  deriving DecidableEq, Repr

/-- The update `PackageManager.get` performs on the selected record `r`:
`r["uri"] = r["uri"].replace(placeholder, r["version"])`, then
`r.update(pkgname, local_filename)` where `local_filename` is the package
directory joined with the basename of the expanded URI. -/
def mkDescriptor (package_dir pkgname : String) (r : PkgRecord) : PkgRecord :=
  let newUri := pyReplace r.uri "\x7b\x7bversion\x7d\x7d" r.version
  { r with
    uri := newUri
    pkgname := some pkgname
    local_filename := some (package_dir ++ "/" ++ basename newUri) }

/-- `PackageManager.get(pkgname, version)`.  The selected record is mutated
in place inside the manifest mapping (it is the same dict object), and that
same record is returned as the descriptor; the updated manager state is
returned alongside. -/
def PackageManager.get (pm : PackageManager) (pkgname : String)
    (version : Option String := none) :
    Except PMError (PkgRecord × PackageManager) :=
  match lookupPkgs pm.pkgs pkgname with
  | none => .error .PackageNameNotPresent
  | some records =>
    let idx? : Except PMError Nat :=
      match version with
      | some v =>
        match findLastIdx (fun r => r.version == v) records with
        | none => .error .PackageVersionNotPresent
        | some i => .ok i
      | none =>
        if records.length = 0 then .error .IndexError
        else .ok (records.length - 1)
    match idx? with
    | .error e => .error e
    | .ok i =>
      match records[i]? with
      | none => .error .IndexError
      | some r =>
        let r' := mkDescriptor pm.package_dir pkgname r
        .ok (r', { pm with pkgs := assocSet pm.pkgs pkgname (records.set i r') })

/-! ## PackageManager.py: the fetcher -/

/-- `PackageManager._get_hashval(filename)`: stream the file and digest it.
`hash` stands for the SHA-384 hex digest function. -/
def get_hashval (hash : List Nat → String) (fs : FS) (filename : String) :
    Option String :=
  (fs filename).map hash

/-- `PackageManager.is_present(pkg, delete_wrong_hash = True)`: false when the
file is absent; otherwise compare the file's digest with the manifest value,
deleting the file on a mismatch when `delete_wrong_hash` is set.  Returns the
boolean result together with the (possibly changed) filesystem. -/
def is_present (hash : List Nat → String) (fs : FS) (pkg : Descriptor)
    (delete_wrong_hash : Bool := true) : Bool × FS :=
  match fs pkg.local_filename with
  | none => (false, fs)
  | some content =>
    if hash content ≠ pkg.sha384 then
      (false, if delete_wrong_hash then eraseFS fs pkg.local_filename else fs)
    else
      (true, fs)

/-- `PackageManager.download(pkg)`: stream the URI's bytes into
`local_filename`.  `net` maps each URI to the bytes the server returns. -/
def download (net : String → List Nat) (fs : FS) (pkg : Descriptor) : FS :=
  writeFS fs pkg.local_filename (net pkg.uri)

/-- The outcome of `retrieve`: the raised exception if any, the final
filesystem, how many downloads were performed, and the digest embedded in
the warning emitted on the lenient (`verify = False`) failure path. -/
structure RetrieveOutcome where
  error : Option PMError
  fs : FS
  downloads : Nat
  warning : Option String

/-- `PackageManager.retrieve(pkg, verify = True)`: no-op when present and
verified; otherwise download and re-check with `delete_wrong_hash = verify`;
on a still-failing check raise `PackageDownloadFailedException` under
`verify = True`, or warn with the recomputed digest under `verify = False`. -/
def retrieve (hash : List Nat → String) (net : String → List Nat) (fs : FS)
    (pkg : Descriptor) (verify : Bool := true) : RetrieveOutcome :=
  let r1 := is_present hash fs pkg
  if r1.fst then ⟨none, r1.snd, 0, none⟩
  else
    let fs2 := download net r1.snd pkg
    let r2 := is_present hash fs2 pkg verify
    if r2.fst then ⟨none, r2.snd, 1, none⟩
    else if verify then ⟨some .PackageDownloadFailed, r2.snd, 1, none⟩
    else ⟨none, r2.snd, 1, get_hashval hash r2.snd pkg.local_filename⟩

/-! ## BuilderFactory.py

The builders' `build()` methods construct a `configure_cmd` list of argument
strings and run it.  The environment (`self.env("prefix")`,
`self.env("target")`) is a map from setting names to strings, and the flag
set is a list of strings.  The command lists below append the same argument
strings in the same order as the source. -/

/-- The `configure_cmd` list built by `BinutilsBuilder.build`. -/
def binutils_configure_cmd (env : String → String) : List String :=
  ["./configure", "--prefix=" ++ env "prefix"]
  ++ (if env "target" ∈ ["7tdmi", "cortex-m0", "cortex-m1", "cortex-m3", "cortex-m4"] then
        ["--target=arm-none-eabi"]
        ++ (if env "target" = "7tdmi" then
              ["--enable-interwork", "--enable-multilib"]
            else
              ["--enable-thumb", "--disable-interwork", "--disable-multilib"])
      else if env "target" = "avr" then
        ["--target=avr"]
      else if env "target" = "blackfin" then
        ["--target=bfin", "--without-gnu-ld"]
      else
        ["--target=" ++ env "target"])
  ++ ["--disable-nls", "--disable-libssp"]

/-- The architecture-dependent part of the `configure_cmd` list built by
`GCCBuilder.build`. -/
def gcc_arch_flags (env : String → String) : List String :=
  if env "target" ∈ ["7tdmi", "cortex-m0", "cortex-m1", "cortex-m3", "cortex-m4"] then
    ["--target=arm-none-eabi", "--with-newlib"]
    ++ (if env "target" = "7tdmi" then
          ["--enable-interwork", "--enable-multilib"]
        else [])
    ++ (if env "target" ∈ ["cortex-m0", "cortex-m3", "cortex-m4"] then
          ["--with-cpu=" ++ env "target", "--disable-interwork", "--disable-multilib"]
        else [])
    ++ (if env "target" ∈ ["cortex-m0", "cortex-m3"] then
          ["--with-float=soft", "--with-mode=thumb"]
        else if env "target" ∈ ["cortex-m4"] then
          ["--with-fpu=fpv4-sp-d16", "--with-float=hard", "--with-mode=thumb"]
        else [])
  else if env "target" = "avr" then
    ["--target=avr"]
  else
    []

/-- The `configure_cmd` list built by `GCCBuilder.build`. -/
def gcc_configure_cmd (env : String → String) (flags : List String) : List String :=
  ["../configure", "--prefix=" ++ env "prefix"]
  ++ (if "prebuild" ∈ flags then ["--without-headers"] else [])
  ++ ["--with-gnu-ld", "--with-gnu-as", "--with-dwarf2", "--disable-werror",
      "--disable-threads", "--disable-nls", "--disable-shared", "--disable-libssp",
      "--disable-libmudflap", "--disable-libgomp"]
  ++ gcc_arch_flags env
  ++ (if "c++" ∈ flags ∧ "prebuild" ∉ flags then
        ["--enable-languages=c,c++"]
      else
        ["--enable-languages=c"])
  ++ ["--with-system-zlib", "--enable-target-optspace"]

/-! ## GenericBuilder lifecycle: build directory creation and cleanup

Directories on disk are modelled as a predicate on paths.
`GenericBuilder.__init__` creates the instance's build directory;
`GenericBuilder.__exit__` removes the directory tree exactly when the
factory's `automatic_cleanup` is set, ignoring the exception information
passed by the `with` statement (`*args`). -/

/-- Which directories exist on disk. -/
def DirState : Type := String → Bool

/-- `os.makedirs(self._builddir)` in `GenericBuilder.__init__`. -/
def mkBuilddir (dirs : DirState) (builddir : String) : DirState :=
  fun d => if d = builddir then true else dirs d

/-- `GenericBuilder.__exit__(*args)`: `shutil.rmtree(self._builddir)` when
`self._factory.automatic_cleanup` holds (removing the directory and its
subtree), a no-op otherwise.  `excInfo` is the `with` statement's exception
information, which the method ignores. -/
def builder_exit (automatic_cleanup : Bool) (builddir : String)
    (_excInfo : Option String) (dirs : DirState) : DirState :=
  if automatic_cleanup then
    fun d => if d = builddir ∨ startsWithL (builddir ++ "/").data d.data then false
             else dirs d
  else
    dirs

/-! ## Concrete instances used by witnesses and counterexamples -/

/-- A concrete environment mapping "target" to "cortex-m3". -/
def envCortexM3 : String → String := fun k => if k = "target" then "cortex-m3" else "/opt"

/-- A concrete one-package manifest. -/
def pmW : PackageManager :=
  ⟨[("p", [⟨"http://x/u-\x7b\x7bversion\x7d\x7d.tar.gz", "1.0", "h", none, none⟩])], "dir"⟩

/-- The descriptor that resolving "p" against `pmW` returns. -/
def dexpW : PkgRecord :=
  ⟨"http://x/u-1.0.tar.gz", "1.0", "h", some "p", some "dir/u-1.0.tar.gz"⟩

/-- The manager state after resolving "p" against `pmW`. -/
def pmW1 : PackageManager := ⟨[("p", [dexpW])], "dir"⟩

/-- A manifest whose sole record has a version string that itself contains
the version placeholder. -/
def pmC4 : PackageManager :=
  ⟨[("p", [⟨"\x7b\x7bversion\x7d\x7d", "a\x7b\x7bversion\x7d\x7db", "h", none, none⟩])], "d"⟩

/-- The version string of that record. -/
def verC4 : String := "a\x7b\x7bversion\x7d\x7db"

/-! ## Helper lemmas -/

theorem startsWithL_self_append (l t : List Char) : startsWithL l (l ++ t) = true := by
  induction l with
  | nil => rfl
  | cons a as ih => simp [startsWithL, ih]

theorem append_ne_of_not_startsWithL (a b : String)
    (h : startsWithL a.data b.data = false) (p : String) : a ++ p ≠ b := by
  intro he
  have hd : a.data ++ p.data = b.data := by
    have : (a ++ p).data = b.data := congrArg String.data he
    simpa using this
  rw [← hd, startsWithL_self_append] at h
  exact Bool.true_eq_false.mp h

theorem cpp_ne_append_arg (p : String) :
    ¬("--enable-languages=c,c++" = "--with-cpu=" ++ p) := by
  intro h
  exact append_ne_of_not_startsWithL "--with-cpu=" "--enable-languages=c,c++"
    (by decide) p h.symm

theorem cpp_ne_append_arg' (p : String) :
    ¬("--enable-languages=c,c++" = "--prefix=" ++ p) := by
  intro h
  exact append_ne_of_not_startsWithL "--prefix=" "--enable-languages=c,c++"
    (by decide) p h.symm

theorem cpp_not_in_arch (env : String → String) :
    "--enable-languages=c,c++" ∉ gcc_arch_flags env := by
  intro hmem
  unfold gcc_arch_flags at hmem
  repeat' split at hmem
  all_goals simp_all [cpp_ne_append_arg]

/-! ## Claims about the builders -/

/-- C7: with "prebuild" in the flag set the GCC configure command contains
`--without-headers` and `--enable-languages=c` and never
`--enable-languages=c,c++`, whatever the other flags; and
`--enable-languages=c,c++` appears exactly when "c++" is a flag and
"prebuild" is not. -/
theorem gcc_prebuild_forces_c_only (env : String → String) (flags : List String) :
    ("prebuild" ∈ flags →
       "--without-headers" ∈ gcc_configure_cmd env flags ∧
       "--enable-languages=c" ∈ gcc_configure_cmd env flags ∧
       "--enable-languages=c,c++" ∉ gcc_configure_cmd env flags) ∧
    ("--enable-languages=c,c++" ∈ gcc_configure_cmd env flags ↔
       ("c++" ∈ flags ∧ "prebuild" ∉ flags)) := by
  by_cases hp : "prebuild" ∈ flags <;> by_cases hc : "c++" ∈ flags <;>
    constructor <;>
      simp [gcc_configure_cmd, hp, hc, cpp_not_in_arch, cpp_ne_append_arg']

/-- C8: for a Binutils build with target "cortex-m3" the configure command
contains `--target=arm-none-eabi`, `--enable-thumb`, `--disable-interwork`,
`--disable-multilib`, `--disable-nls` and `--disable-libssp`. -/
theorem binutils_cortex_m3_flags (env : String → String)
    (h : env "target" = "cortex-m3") :
    "--target=arm-none-eabi" ∈ binutils_configure_cmd env ∧
    "--enable-thumb" ∈ binutils_configure_cmd env ∧
    "--disable-interwork" ∈ binutils_configure_cmd env ∧
    "--disable-multilib" ∈ binutils_configure_cmd env ∧
    "--disable-nls" ∈ binutils_configure_cmd env ∧
    "--disable-libssp" ∈ binutils_configure_cmd env := by
  simp [binutils_configure_cmd, h]

/-- C8 witness: the six flags at the concrete cortex-m3 environment. -/
theorem binutils_cortex_m3_flags_witness :
    "--target=arm-none-eabi" ∈ binutils_configure_cmd envCortexM3 ∧
    "--enable-thumb" ∈ binutils_configure_cmd envCortexM3 ∧
    "--disable-interwork" ∈ binutils_configure_cmd envCortexM3 ∧
    "--disable-multilib" ∈ binutils_configure_cmd envCortexM3 ∧
    "--disable-nls" ∈ binutils_configure_cmd envCortexM3 ∧
    "--disable-libssp" ∈ binutils_configure_cmd envCortexM3 :=
  binutils_cortex_m3_flags envCortexM3 rfl

/-- C9: after the builder's scope exits, the build directory created at
construction is gone exactly when automatic cleanup is enabled — and the
outcome does not depend on whether the body raised an exception. -/
theorem builddir_removed_iff_cleanup (cleanup : Bool) (builddir : String)
    (exc : Option String) (dirs : DirState) :
    (∀ exc2, builder_exit cleanup builddir exc (mkBuilddir dirs builddir) =
             builder_exit cleanup builddir exc2 (mkBuilddir dirs builddir)) ∧
    (builder_exit cleanup builddir exc (mkBuilddir dirs builddir) builddir = false ↔
       cleanup = true) := by
  refine ⟨fun _ => rfl, ?_⟩
  cases cleanup <;> simp [builder_exit, mkBuilddir]

/-! ## Helper lemmas about the fetcher -/

theorem is_present_absent (hash : List Nat → String) (fs : FS) (pkg : Descriptor)
    (d : Bool) (h : fs pkg.local_filename = none) :
    is_present hash fs pkg d = (false, fs) := by
  simp [is_present, h]

theorem is_present_match (hash : List Nat → String) (fs : FS) (pkg : Descriptor)
    (d : Bool) (c : List Nat) (hc : fs pkg.local_filename = some c)
    (hm : hash c = pkg.sha384) :
    is_present hash fs pkg d = (true, fs) := by
  simp [is_present, hc, hm]

theorem is_present_mismatch (hash : List Nat → String) (fs : FS) (pkg : Descriptor)
    (d : Bool) (c : List Nat) (hc : fs pkg.local_filename = some c)
    (hm : hash c ≠ pkg.sha384) :
    is_present hash fs pkg d =
      (false, if d then eraseFS fs pkg.local_filename else fs) := by
  simp [is_present, hc, hm]

theorem is_present_fst_true (hash : List Nat → String) (fs : FS) (pkg : Descriptor)
    (d : Bool) :
    (is_present hash fs pkg d).fst = true ↔
      ∃ c, fs pkg.local_filename = some c ∧ hash c = pkg.sha384 := by
  cases hfs : fs pkg.local_filename with
  | none => simp [is_present_absent hash fs pkg d hfs, hfs]
  | some c =>
    by_cases hm : hash c = pkg.sha384
    · simp [is_present_match hash fs pkg d c hfs hm, hfs, hm]
    · simp [is_present_mismatch hash fs pkg d c hfs hm, hfs, hm]

theorem is_present_snd_of_true (hash : List Nat → String) (fs : FS) (pkg : Descriptor)
    (d : Bool) (h : (is_present hash fs pkg d).fst = true) :
    (is_present hash fs pkg d).snd = fs := by
  obtain ⟨c, hc, hm⟩ := (is_present_fst_true hash fs pkg d).mp h
  rw [is_present_match hash fs pkg d c hc hm]

theorem retrieve_of_present (hash : List Nat → String) (net : String → List Nat)
    (fs : FS) (pkg : Descriptor) (verify : Bool)
    (h : (is_present hash fs pkg).fst = true) :
    retrieve hash net fs pkg verify = ⟨none, (is_present hash fs pkg).snd, 0, none⟩ := by
  simp only [retrieve, h, if_true]

theorem retrieve_of_download_ok (hash : List Nat → String) (net : String → List Nat)
    (fs : FS) (pkg : Descriptor) (verify : Bool)
    (h1 : (is_present hash fs pkg).fst = false)
    (h2 : (is_present hash (download net (is_present hash fs pkg).snd pkg) pkg
            verify).fst = true) :
    retrieve hash net fs pkg verify =
      ⟨none, download net (is_present hash fs pkg).snd pkg, 1, none⟩ := by
  simp [retrieve, h1, h2, is_present_snd_of_true hash _ pkg verify h2]

theorem retrieve_of_download_fail_strict (hash : List Nat → String)
    (net : String → List Nat) (fs : FS) (pkg : Descriptor)
    (h1 : (is_present hash fs pkg).fst = false)
    (h2 : (is_present hash (download net (is_present hash fs pkg).snd pkg) pkg
            true).fst = false) :
    retrieve hash net fs pkg true =
      ⟨some .PackageDownloadFailed,
       (is_present hash (download net (is_present hash fs pkg).snd pkg) pkg true).snd,
       1, none⟩ := by
  simp [retrieve, h1, h2]

theorem retrieve_of_download_fail_lenient (hash : List Nat → String)
    (net : String → List Nat) (fs : FS) (pkg : Descriptor)
    (h1 : (is_present hash fs pkg).fst = false)
    (h2 : (is_present hash (download net (is_present hash fs pkg).snd pkg) pkg
            false).fst = false) :
    retrieve hash net fs pkg false =
      ⟨none,
       (is_present hash (download net (is_present hash fs pkg).snd pkg) pkg false).snd,
       1,
       get_hashval hash
         (is_present hash (download net (is_present hash fs pkg).snd pkg) pkg
           false).snd pkg.local_filename⟩ := by
  simp [retrieve, h1, h2]

theorem download_reads_uri (net : String → List Nat) (fs : FS) (pkg : Descriptor) :
    download net fs pkg pkg.local_filename = some (net pkg.uri) := by
  simp [download, writeFS]

/-! ## Helper lemmas about the resolver -/

theorem replaceCharsAux_not_occurs (pat rep : List Char) :
    ∀ fuel l, occursIn pat l = false → replaceCharsAux pat rep fuel l = l := by
  intro fuel
  induction fuel with
  | zero => intro l _; cases l <;> rfl
  | succ n ih =>
    intro l hl
    cases l with
    | nil => rfl
    | cons c cs =>
      rw [occursIn, Bool.or_eq_false_iff] at hl
      rw [replaceCharsAux, hl.1, Bool.and_false, if_neg (by simp)]
      rw [ih cs hl.2]

theorem pyReplace_not_occurs (s pat rep : String)
    (h : occursIn pat.data s.data = false) : pyReplace s pat rep = s := by
  unfold pyReplace replaceChars
  rw [replaceCharsAux_not_occurs pat.data rep.data s.data.length s.data h]

theorem findLastIdx_eq_none_iff (p : α → Bool) (l : List α) :
    findLastIdx p l = none ↔ ∀ a ∈ l, p a = false := by
  induction l with
  | nil => simp [findLastIdx]
  | cons c cs ih =>
    rw [findLastIdx]
    cases hcs : findLastIdx p cs with
    | some i => simp [hcs, ← ih, forall_and]
    | none =>
      by_cases hp : p c = true <;>
        simp [hcs, hp, ← ih, forall_and]

theorem getElem?_last (l : List α) (d : α) (h : l ≠ []) :
    l[l.length - 1]? = some (l.getLastD d) := by
  induction l generalizing d with
  | nil => exact absurd rfl h
  | cons a as ih =>
    cases as with
    | nil => rfl
    | cons b t =>
      have hstep := ih (d := a) (by simp)
      simpa using hstep

theorem listSetSelf (l : List α) : ∀ (i : Nat) (a : α), l[i]? = some a → l.set i a = l := by
  induction l with
  | nil => intro i a h; simp at h
  | cons c cs ih =>
    intro i a h
    cases i with
    | zero => simp at h; simp [h]
    | succ n =>
      simp only [List.getElem?_cons_succ] at h
      simp [List.set_cons_succ, ih n a h]

theorem listGetElemSet (l : List α) :
    ∀ (i : Nat) (r a : α), l[i]? = some r → (l.set i a)[i]? = some a := by
  induction l with
  | nil => intro i r a h; simp at h
  | cons c cs ih =>
    intro i r a h
    cases i with
    | zero => simp
    | succ n =>
      simp only [List.getElem?_cons_succ] at h ⊢
      simp [ih n r a h]

theorem findLastIdx_set (p : α → Bool) (l : List α) :
    ∀ (i : Nat) (r a : α), l[i]? = some r → p a = p r →
      findLastIdx p (l.set i a) = findLastIdx p l := by
  induction l with
  | nil => intro i r a h _; simp at h
  | cons c cs ih =>
    intro i r a h hp
    cases i with
    | zero =>
      simp only [List.getElem?_cons_zero, Option.some.injEq] at h
      subst h
      simp only [List.set_cons_zero, findLastIdx]
      cases findLastIdx p cs <;> simp [hp]
    | succ n =>
      simp only [List.getElem?_cons_succ] at h
      simp only [List.set_cons_succ, findLastIdx, ih n r a h hp]

theorem lookupPkgs_assocSet (l : List (String × List PkgRecord)) (k : String)
    (v w : List PkgRecord) (h : lookupPkgs l k = some w) :
    lookupPkgs (assocSet l k v) k = some v := by
  induction l with
  | nil => simp [lookupPkgs] at h
  | cons p ps ih =>
    by_cases hk : p.fst = k
    · simp [lookupPkgs, assocSet, hk]
    · rw [lookupPkgs, if_neg hk] at h
      simp only [assocSet, List.map_cons, if_neg hk]
      rw [lookupPkgs, if_neg hk]
      exact ih h

theorem lookupPkgs_assocSet_ne (l : List (String × List PkgRecord)) (k k2 : String)
    (v : List PkgRecord) (hk : k2 ≠ k) :
    lookupPkgs (assocSet l k v) k2 = lookupPkgs l k2 := by
  induction l with
  | nil => rfl
  | cons p ps ih =>
    by_cases hpk : p.fst = k
    · have : ¬(p.fst = k2) := by rw [hpk]; exact fun he => hk he.symm
      simp only [assocSet, List.map_cons, if_pos hpk]
      rw [lookupPkgs, if_neg this, lookupPkgs, if_neg this]
      exact ih
    · simp only [assocSet, List.map_cons, if_neg hpk]
      rw [lookupPkgs, lookupPkgs]
      by_cases hp2 : p.fst = k2
      · simp [hp2]
      · rw [if_neg hp2, if_neg hp2]
        exact ih

theorem assocSet_map_fst (l : List (String × List PkgRecord)) (k : String)
    (v : List PkgRecord) :
    (assocSet l k v).map Prod.fst = l.map Prod.fst := by
  induction l with
  | nil => rfl
  | cons p ps ih =>
    by_cases hk : p.fst = k <;> simp [assocSet, hk] <;> simpa [assocSet] using ih

/-! ## Claims about the fetcher -/

/-- C1: `is_present` is false when the file is absent; when it exists it is
true exactly when the computed digest equals the manifest digest, and on a
mismatch the file is deleted exactly when `delete_wrong_hash` is set (its
default being true), so a mutated cached file is reported not-present. -/
theorem is_present_verifies_digest (hash : List Nat → String) (fs : FS)
    (pkg : Descriptor) (d : Bool) :
    (fs pkg.local_filename = none → is_present hash fs pkg d = (false, fs)) ∧
    (∀ content, fs pkg.local_filename = some content →
       (((is_present hash fs pkg d).fst = true) ↔ hash content = pkg.sha384) ∧
       (hash content = pkg.sha384 → is_present hash fs pkg d = (true, fs)) ∧
       (hash content ≠ pkg.sha384 →
          (is_present hash fs pkg d).fst = false ∧
          ((is_present hash fs pkg d).snd pkg.local_filename = none ↔ d = true) ∧
          (d = false → (is_present hash fs pkg d).snd = fs))) ∧
    (is_present hash fs pkg = is_present hash fs pkg true) := by
  refine ⟨fun h => is_present_absent hash fs pkg d h, ?_, rfl⟩
  intro content hc
  by_cases hm : hash content = pkg.sha384
  · rw [is_present_match hash fs pkg d content hc hm]
    simp [hm]
  · rw [is_present_mismatch hash fs pkg d content hc hm]
    cases d <;> simp [hm, eraseFS, hc]

/-- C2: `retrieve` raises `PackageDownloadFailedException` exactly when
`verify` is set and the artifact is neither present-and-verified before nor
after the download; with `verify` unset and verification still failing it
returns successfully, warning with the recomputed digest of the downloaded
file. -/
theorem retrieve_verify_failure (hash : List Nat → String) (net : String → List Nat)
    (fs : FS) (pkg : Descriptor) (verify : Bool) :
    ((retrieve hash net fs pkg verify).error ≠ none ↔
       (verify = true ∧ (is_present hash fs pkg).fst = false ∧
        (is_present hash (download net (is_present hash fs pkg).snd pkg) pkg
          verify).fst = false)) ∧
    ((retrieve hash net fs pkg verify).error ≠ none →
       (retrieve hash net fs pkg verify).error = some .PackageDownloadFailed) ∧
    ((is_present hash fs pkg).fst = false →
       (is_present hash (download net (is_present hash fs pkg).snd pkg) pkg
          false).fst = false →
       (retrieve hash net fs pkg false).error = none ∧
       (retrieve hash net fs pkg false).downloads = 1 ∧
       (retrieve hash net fs pkg false).warning = some (hash (net pkg.uri))) := by
  refine ⟨?_, ?_, ?_⟩
  · by_cases h1 : (is_present hash fs pkg).fst = true
    · rw [retrieve_of_present hash net fs pkg verify h1]
      simp [h1]
    · rw [Bool.not_eq_true] at h1
      by_cases h2 : (is_present hash (download net (is_present hash fs pkg).snd pkg)
          pkg verify).fst = true
      · rw [retrieve_of_download_ok hash net fs pkg verify h1 h2]
        simp [h2]
      · rw [Bool.not_eq_true] at h2
        cases verify
        · rw [retrieve_of_download_fail_lenient hash net fs pkg h1 h2]
          simp [h1, h2]
        · rw [retrieve_of_download_fail_strict hash net fs pkg h1 h2]
          simp [h1, h2]
  · by_cases h1 : (is_present hash fs pkg).fst = true
    · rw [retrieve_of_present hash net fs pkg verify h1]
      simp
    · rw [Bool.not_eq_true] at h1
      by_cases h2 : (is_present hash (download net (is_present hash fs pkg).snd pkg)
          pkg verify).fst = true
      · rw [retrieve_of_download_ok hash net fs pkg verify h1 h2]
        simp
      · rw [Bool.not_eq_true] at h2
        cases verify
        · rw [retrieve_of_download_fail_lenient hash net fs pkg h1 h2]
          simp
        · rw [retrieve_of_download_fail_strict hash net fs pkg h1 h2]
          simp
  · intro h1 h2
    rw [retrieve_of_download_fail_lenient hash net fs pkg h1 h2]
    have hc : download net (is_present hash fs pkg).snd pkg pkg.local_filename =
        some (net pkg.uri) := download_reads_uri net (is_present hash fs pkg).snd pkg
    have hm : hash (net pkg.uri) ≠ pkg.sha384 := by
      intro hm
      rw [is_present_match hash _ pkg false (net pkg.uri) hc hm] at h2
      simp at h2
    rw [is_present_mismatch hash _ pkg false (net pkg.uri) hc hm]
    simp [get_hashval, hc]

/-- C3: `retrieve` is a no-op (zero downloads) when the artifact is already
present with a matching digest, and a second `retrieve` after a successful
strict retrieval performs no download. -/
theorem retrieve_idempotent (hash : List Nat → String) (net : String → List Nat)
    (fs : FS) (pkg : Descriptor) :
    (∀ content, fs pkg.local_filename = some content → hash content = pkg.sha384 →
       ∀ verify, retrieve hash net fs pkg verify = ⟨none, fs, 0, none⟩) ∧
    ((retrieve hash net fs pkg true).error = none →
       ∀ verify, retrieve hash net (retrieve hash net fs pkg true).fs pkg verify =
         ⟨none, (retrieve hash net fs pkg true).fs, 0, none⟩) := by
  constructor
  · intro content hc hm verify
    have h1 : (is_present hash fs pkg).fst = true := by
      rw [is_present_match hash fs pkg true content hc hm]
    rw [retrieve_of_present hash net fs pkg verify h1,
        is_present_snd_of_true hash fs pkg true h1]
  · intro he verify
    by_cases h1 : (is_present hash fs pkg).fst = true
    · have hr : retrieve hash net fs pkg true = ⟨none, fs, 0, none⟩ := by
        rw [retrieve_of_present hash net fs pkg true h1,
            is_present_snd_of_true hash fs pkg true h1]
      rw [hr]
      show retrieve hash net fs pkg verify = ⟨none, fs, 0, none⟩
      rw [retrieve_of_present hash net fs pkg verify h1,
          is_present_snd_of_true hash fs pkg true h1]
    · rw [Bool.not_eq_true] at h1
      by_cases h2 : (is_present hash (download net (is_present hash fs pkg).snd pkg)
          pkg true).fst = true
      · rw [retrieve_of_download_ok hash net fs pkg true h1 h2]
        show retrieve hash net (download net (is_present hash fs pkg).snd pkg)
            pkg verify =
          ⟨none, download net (is_present hash fs pkg).snd pkg, 0, none⟩
        rw [retrieve_of_present hash net _ pkg verify h2,
            is_present_snd_of_true hash _ pkg true h2]
      · rw [Bool.not_eq_true] at h2
        rw [retrieve_of_download_fail_strict hash net fs pkg h1 h2] at he
        simp at he

/-- C10: when strict `retrieve` raises after a download, the corrupt file has
already been deleted, so nothing remains at `local_filename`; lenient
`retrieve` leaves the unverified downloaded bytes in place. -/
theorem retrieve_failure_cleans_cache (hash : List Nat → String)
    (net : String → List Nat) (fs : FS) (pkg : Descriptor) :
    ((retrieve hash net fs pkg true).error ≠ none →
       (retrieve hash net fs pkg true).fs pkg.local_filename = none) ∧
    ((is_present hash fs pkg).fst = false →
       hash (net pkg.uri) ≠ pkg.sha384 →
       (retrieve hash net fs pkg false).error = none ∧
       (retrieve hash net fs pkg false).fs pkg.local_filename =
         some (net pkg.uri)) := by
  constructor
  · intro he
    by_cases h1 : (is_present hash fs pkg).fst = true
    · rw [retrieve_of_present hash net fs pkg true h1] at he
      simp at he
    · rw [Bool.not_eq_true] at h1
      have hc : download net (is_present hash fs pkg).snd pkg pkg.local_filename =
          some (net pkg.uri) := download_reads_uri net (is_present hash fs pkg).snd pkg
      by_cases h2 : (is_present hash (download net (is_present hash fs pkg).snd pkg)
          pkg true).fst = true
      · rw [retrieve_of_download_ok hash net fs pkg true h1 h2] at he
        simp at he
      · rw [Bool.not_eq_true] at h2
        have hm : hash (net pkg.uri) ≠ pkg.sha384 := by
          intro hm
          rw [is_present_match hash _ pkg true (net pkg.uri) hc hm] at h2
          simp at h2
        rw [retrieve_of_download_fail_strict hash net fs pkg h1 h2]
        rw [is_present_mismatch hash _ pkg true (net pkg.uri) hc hm]
        simp [eraseFS]
  · intro h1 hm
    have hc : download net (is_present hash fs pkg).snd pkg pkg.local_filename =
        some (net pkg.uri) := download_reads_uri net (is_present hash fs pkg).snd pkg
    have h2 : (is_present hash (download net (is_present hash fs pkg).snd pkg) pkg
        false).fst = false := by
      rw [is_present_mismatch hash _ pkg false (net pkg.uri) hc hm]
    rw [retrieve_of_download_fail_lenient hash net fs pkg h1 h2]
    rw [is_present_mismatch hash _ pkg false (net pkg.uri) hc hm]
    exact ⟨rfl, by simp [hc]⟩

/-! ## Inversion of a successful resolution -/

theorem get_ok_inversion (pm : PackageManager) (pkgname : String)
    (version : Option String) (d : PkgRecord) (pm' : PackageManager)
    (h : pm.get pkgname version = .ok (d, pm')) :
    ∃ records i r, lookupPkgs pm.pkgs pkgname = some records ∧
      records[i]? = some r ∧
      d = mkDescriptor pm.package_dir pkgname r ∧
      pm' = { pm with pkgs := assocSet pm.pkgs pkgname (records.set i d) } ∧
      ((∃ v, version = some v ∧
          findLastIdx (fun q => q.version == v) records = some i) ∨
       (version = none ∧ records.length ≠ 0 ∧ i = records.length - 1)) := by
  rcases version with _ | v
  · unfold PackageManager.get at h
    rcases hl : lookupPkgs pm.pkgs pkgname with _ | records
    · rw [hl] at h; simp at h
    · rw [hl] at h
      by_cases hlen : records.length = 0
      · simp [hlen] at h
      · rcases hr : records[records.length - 1]? with _ | r
        · simp [hlen, hr] at h
        · simp only [hlen, hr, if_neg, ite_false] at h
          rw [Except.ok.injEq, Prod.mk.injEq] at h
          obtain ⟨hd, hpm⟩ := h
          refine ⟨records, records.length - 1, r, rfl, hr, hd.symm, ?_, ?_⟩
          · rw [← hpm, hd]
          · exact Or.inr ⟨rfl, hlen, rfl⟩
  · unfold PackageManager.get at h
    rcases hl : lookupPkgs pm.pkgs pkgname with _ | records
    · rw [hl] at h; simp at h
    · rw [hl] at h
      rcases hfi : findLastIdx (fun q => q.version == v) records with _ | i
      · simp [hfi] at h
      · rcases hr : records[i]? with _ | r
        · simp [hfi, hr] at h
        · simp only [hfi, hr] at h
          rw [Except.ok.injEq, Prod.mk.injEq] at h
          obtain ⟨hd, hpm⟩ := h
          refine ⟨records, i, r, rfl, hr, hd.symm, ?_, ?_⟩
          · rw [← hpm, hd]
          · exact Or.inl ⟨v, rfl, hfi⟩

/-! ## Claims about the resolver -/

/-- C6: `get` fails with `PackageNameNotPresentException` on an unknown
package name; with an explicit version matching no record it fails with
`PackageVersionNotPresentException` instead of falling back to the latest
record; and with the version omitted it selects exactly the last record in
manifest order. -/
theorem get_selects_version (pm : PackageManager) (pkgname ver : String) :
    (lookupPkgs pm.pkgs pkgname = none →
       ∀ version, pm.get pkgname version = .error .PackageNameNotPresent) ∧
    (∀ records, lookupPkgs pm.pkgs pkgname = some records →
       ((∀ r ∈ records, r.version ≠ ver) →
          pm.get pkgname (some ver) = .error .PackageVersionNotPresent) ∧
       (records ≠ [] →
          ∃ pm', pm.get pkgname none =
            .ok (mkDescriptor pm.package_dir pkgname
                   (records.getLastD ⟨"", "", "", none, none⟩), pm'))) := by
  constructor
  · intro h version
    rcases version with _ | v <;> simp [PackageManager.get, h]
  · intro records h
    constructor
    · intro hnone
      have hfi : findLastIdx (fun q => q.version == ver) records = none := by
        rw [findLastIdx_eq_none_iff]
        intro a ha
        simpa using hnone a ha
      simp [PackageManager.get, h, hfi]
    · intro hne
      have hlen : ¬(records.length = 0) := by simpa using hne
      have hL := getElem?_last records (⟨"", "", "", none, none⟩ : PkgRecord) hne
      apply Exists.intro
      simp only [PackageManager.get, h, hlen, hL, ite_false]
      exact rfl

/-- Setting a list element whose `version` and `sha384` agree with the one it
replaces leaves the digest projection of the list unchanged. -/
theorem listMapSetProj (l : List PkgRecord) :
    ∀ (i : Nat) (r a : PkgRecord), l[i]? = some r →
      a.version = r.version → a.sha384 = r.sha384 →
      ((l.set i a).map fun q => (q.version, q.sha384)) =
        (l.map fun q => (q.version, q.sha384)) := by
  induction l with
  | nil => intro i r a h _ _; simp at h
  | cons c cs ih =>
    intro i r a h hv hs
    cases i with
    | zero =>
      simp only [List.getElem?_cons_zero, Option.some.injEq] at h
      subst h
      simp [hv, hs]
    | succ n =>
      simp only [List.getElem?_cons_succ] at h
      simp [ih n r a h hv hs]

/-- C5 (amended): resolving never changes the `version` or `sha384` field of
any stored manifest record, nor the key set of the manifest mapping.  The
claim's stronger assertion — that the stored records are not mutated at all —
fails: the selected record's `uri` is overwritten in place with the expanded
URI and the `pkgname` and `local_filename` keys are inserted into it (see the
counterexample). -/
theorem get_preserves_version_sha384 (pm : PackageManager) (pkgname : String)
    (version : Option String) (d : PkgRecord) (pm' : PackageManager)
    (h : pm.get pkgname version = .ok (d, pm')) :
    pm'.package_dir = pm.package_dir ∧
    pm'.pkgs.map Prod.fst = pm.pkgs.map Prod.fst ∧
    ∀ k, (lookupPkgs pm'.pkgs k).map (List.map fun q => (q.version, q.sha384)) =
         (lookupPkgs pm.pkgs k).map (List.map fun q => (q.version, q.sha384)) := by
  obtain ⟨records, i, r, hl, hr, hd, hpm, _⟩ :=
    get_ok_inversion pm pkgname version d pm' h
  subst hpm
  refine ⟨rfl, assocSet_map_fst pm.pkgs pkgname _, ?_⟩
  intro k
  by_cases hk : k = pkgname
  · subst hk
    rw [lookupPkgs_assocSet pm.pkgs k _ records hl, hl]
    simp only [Option.map_some']
    congr 1
    exact listMapSetProj records i r d hr
      (by rw [hd]; simp [mkDescriptor]) (by rw [hd]; simp [mkDescriptor])
  · rw [lookupPkgs_assocSet_ne pm.pkgs pkgname k _ hk]

/-- C5 witness: the amended statement at the concrete manifest `pmW`. -/
theorem get_preserves_version_sha384_witness :
    pmW1.package_dir = pmW.package_dir ∧
    pmW1.pkgs.map Prod.fst = pmW.pkgs.map Prod.fst ∧
    ∀ k, (lookupPkgs pmW1.pkgs k).map (List.map fun q => (q.version, q.sha384)) =
         (lookupPkgs pmW.pkgs k).map (List.map fun q => (q.version, q.sha384)) :=
  get_preserves_version_sha384 pmW "p" none dexpW pmW1 rfl

/-- C5 counterexample: resolving does mutate the stored manifest record — the
stored record list after `get` differs from the one loaded at construction
(its `uri` has been expanded in place and two keys were inserted). -/
theorem get_mutates_stored_record :
    ((pmW.get "p" none).toOption.map fun x => x.snd.pkgs) ≠ some pmW.pkgs := by
  decide

/-- The descriptor update is stable on a record it has already produced,
provided the expanded URI no longer contains the version placeholder. -/
theorem mkDescriptor_stable (dir pkgname : String) (d : PkgRecord)
    (hfix : occursIn "\x7b\x7bversion\x7d\x7d".data d.uri.data = false)
    (hpk : d.pkgname = some pkgname)
    (hlf : d.local_filename = some (dir ++ "/" ++ basename d.uri)) :
    mkDescriptor dir pkgname d = d := by
  simp only [mkDescriptor, pyReplace_not_occurs d.uri _ d.version hfix]
  cases d
  simp_all

/-- C4 (amended): a resolved descriptor's `local_filename` is always the
package directory joined with the basename of the expanded URI; and
resolving the same name and version again returns the identical descriptor
provided the expanded URI no longer contains the version placeholder.
Without that proviso re-resolution expands the stored, already-expanded URI
a second time and can differ (see the counterexample, where the version
string itself contains the placeholder). -/
theorem get_local_filename_deterministic (pm : PackageManager) (pkgname : String)
    (version : Option String) (d : PkgRecord) (pm' : PackageManager)
    (h : pm.get pkgname version = .ok (d, pm')) :
    d.local_filename = some (pm.package_dir ++ "/" ++ basename d.uri) ∧
    (occursIn "\x7b\x7bversion\x7d\x7d".data d.uri.data = false →
       ∃ pm'', pm'.get pkgname version = .ok (d, pm'')) := by
  obtain ⟨records, i, r, hl, hr, hd, hpm, hsel⟩ :=
    get_ok_inversion pm pkgname version d pm' h
  have hdl : d.local_filename = some (pm.package_dir ++ "/" ++ basename d.uri) := by
    rw [hd]; simp [mkDescriptor]
  refine ⟨hdl, ?_⟩
  intro hfix
  have hpk : d.pkgname = some pkgname := by rw [hd]; simp [mkDescriptor]
  have hlook : lookupPkgs pm'.pkgs pkgname = some (records.set i d) := by
    rw [hpm]
    exact lookupPkgs_assocSet pm.pkgs pkgname _ records hl
  have hri : (records.set i d)[i]? = some d := listGetElemSet records i r d hr
  have hmkd : mkDescriptor pm'.package_dir pkgname d = d := by
    have hdir : pm'.package_dir = pm.package_dir := by rw [hpm]
    rw [hdir]
    exact mkDescriptor_stable pm.package_dir pkgname d hfix hpk hdl
  rcases hsel with ⟨v, hv, hfi⟩ | ⟨hv, hlen, hi⟩
  · subst hv
    have hpq : ((fun q : PkgRecord => q.version == v) d) =
        ((fun q : PkgRecord => q.version == v) r) := by
      rw [hd]; simp [mkDescriptor]
    have hfi2 : findLastIdx (fun q => q.version == v) (records.set i d) = some i := by
      rw [findLastIdx_set (fun q => q.version == v) records i r d hr hpq]
      exact hfi
    apply Exists.intro
    simp only [PackageManager.get, hlook, hfi2, hri, hmkd]
    exact rfl
  · subst hv
    have hlen2 : ¬((records.set i d).length = 0) := by
      simpa [List.length_set] using hlen
    have hri2 : (records.set i d)[(records.set i d).length - 1]? = some d := by
      rw [List.length_set, ← hi]; exact hri
    apply Exists.intro
    simp only [PackageManager.get, hlook, hlen2, hri2, hmkd, ite_false]
    exact rfl

/-- C4 witness: the amended statement at the concrete manifest `pmW`. -/
theorem get_local_filename_deterministic_witness :
    dexpW.local_filename = some (pmW.package_dir ++ "/" ++ basename dexpW.uri) ∧
    (occursIn "\x7b\x7bversion\x7d\x7d".data dexpW.uri.data = false →
       ∃ pm'', pmW1.get "p" none = .ok (dexpW, pm'')) :=
  get_local_filename_deterministic pmW "p" none dexpW pmW1 rfl

/-- C4 counterexample: against `pmC4` the first and the second resolution of
the same (name, version) return different descriptors. -/
theorem get_second_resolution_differs :
    ((pmC4.get "p" (some verC4)).toOption.map Prod.fst) ≠
    ((pmC4.get "p" (some verC4)).toOption.bind fun x =>
      (x.snd.get "p" (some verC4)).toOption.map Prod.fst) := by
  decide
